import Mathlib

/-!
Shallow embedding of the QR decoding pipeline of the qr-inventory-scanner
repository: the image filters of `src/components/qr/image-processing` and the
decode strategy runner of `src/components/qr/qr-scanner.tsx`, together with
theorems checking the specification's claims about them.

Conventions of the embedding:
* A frame (browser `ImageData`) is a width, a height and a byte function
  `data : ℕ → ℕ`; a well-formed frame has byte values in `[0,255]` and zeroes
  beyond `width*height*4` (a `Uint8ClampedArray` of that exact length).
* JavaScript floating point arithmetic is modelled with exact rationals `ℚ`;
  `Math.round` is `jsRound` (floor of `x + 1/2`, JS rounds halves up).
* The `Uint32Array` holding the Bradley integral table wraps stores modulo
  `2 ^ 32`; this is modelled explicitly in `integralTab`.
* Functions that write into their argument's pixel buffer (the source's
  `enhanceContrast` and `unsharpMask` assign into `imageData.data`) are also
  given an effect form `…Eff` returning the pair
  (returned frame, state of the argument's buffer after the call).
* A JavaScript function that may throw is modelled with `Except Unit`.
-/

/-- JS `Math.round`: rounds half-integers toward positive infinity. -/
def jsRound (q : ℚ) : ℤ := ⌊q + 1/2⌋

/-- Source helper `clamp(v)`: `v < 0 ? 0 : v > 255 ? 255 : v | 0` (its argument
is always the integer result of `Math.round`). -/
def clamp (v : ℤ) : ℕ := if v < 0 then 0 else if v > 255 then 255 else v.toNat

/-- Source helper `clampX(x, w)`. -/
def clampX (x : ℤ) (w : ℕ) : ℕ :=
  if x < 0 then 0 else if (w : ℤ) ≤ x then w - 1 else x.toNat

/-- Source helper `clampY(y, h)`. -/
def clampY (y : ℤ) (h : ℕ) : ℕ :=
  if y < 0 then 0 else if (h : ℤ) ≤ y then h - 1 else y.toNat

/-- A browser `ImageData`: RGBA bytes in row-major order, `data i` is the byte
at index `i` of the backing `Uint8ClampedArray`. -/
structure ImageData where
  width : ℕ
  height : ℕ
  data : ℕ → ℕ

/-- Length of the backing byte array: `width * height * 4`. -/
def ImageData.len (id : ImageData) : ℕ := id.width * id.height * 4

/-- Well-formedness: bytes are in `[0,255]` and the function is zero outside
the backing array (a real `Uint8ClampedArray` has exactly `len` entries). -/
def ImageData.Wf (id : ImageData) : Prop :=
  (∀ i, id.data i ≤ 255) ∧ (∀ i, id.len ≤ i → id.data i = 0)

/-- `new ImageData(new Uint8ClampedArray(id.data), id.width, id.height)`:
a fresh frame holding a copy of the first `len` bytes. -/
def copyImage (id : ImageData) : ImageData :=
  { width := id.width, height := id.height,
    data := fun i => if i < id.len then id.data i else 0 }

/-- The linear contrast factor `259*(c+255) / (255*(259-c))`. -/
def contrastFactor (c : ℚ) : ℚ := (259 * (c + 255)) / (255 * (259 - c))

/-- Source `enhanceContrast(imageData, contrast)`: remaps each R/G/B byte to
`clamp(Math.round(factor*(v-128)+128))`, writing into `imageData.data` in
place (alpha bytes and anything beyond the array are untouched). -/
def enhanceContrast (id : ImageData) (contrast : ℚ) : ImageData :=
  { id with data := fun i =>
      if i < id.len ∧ i % 4 ≠ 3 then
        clamp (jsRound (contrastFactor contrast * ((id.data i : ℚ) - 128) + 128))
      else id.data i }

/-- The 3×3 sharpening kernel `[[0,-1,0],[-1,5,-1],[0,-1,0]]` of
`unsharpMask`, indexed `kmat (ky+1) (kx+1)`. -/
def kmat : ℕ → ℕ → ℤ
  | 0, 1 => -1
  | 1, 0 => -1
  | 1, 1 => 5
  | 1, 2 => -1
  | 2, 1 => -1
  | _, _ => 0

/-- The kernel offsets `-1, 0, 1` iterated by the convolution loops. -/
def offsets : List ℤ := [-1, 0, 1]

/-- The convolution sum accumulated by `unsharpMask` for pixel `(y,x)` and
channel `ch`: source samples are edge-clamped with `clampX`/`clampY`, each
weighted by `k[ky+1][kx+1] * amount`, read from the pristine copy `src`. -/
def convAt (id : ImageData) (amount : ℚ) (y x ch : ℕ) : ℚ :=
  (offsets.map (fun ky =>
    (offsets.map (fun kx =>
      let sx := clampX ((x : ℤ) + kx) id.width
      let sy := clampY ((y : ℤ) + ky) id.height
      let idx := (sy * id.width + sx) * 4
      (id.data (idx + ch) : ℚ) * ((kmat (ky + 1).toNat (kx + 1).toNat : ℚ) * amount))).sum)).sum

/-- Source `unsharpMask(imageData, amount)`: 3×3 convolution reading from a
pristine copy of the data, writing `clamp(Math.round(·))` for each R/G/B byte
into `imageData.data` in place; alpha untouched. -/
def unsharpMask (id : ImageData) (amount : ℚ) : ImageData :=
  { id with data := fun i =>
      if i < id.len ∧ i % 4 ≠ 3 then
        clamp (jsRound (convAt id amount (i / 4 / id.width) (i / 4 % id.width) (i % 4)))
      else id.data i }

/-- Source `invertImageData(imageData)`: allocates a new frame whose R/G/B
bytes are `255 - v` and whose alpha bytes are copied (the loop covers the
whole array, so the `?? 255` default never fires). -/
def invertImageData (id : ImageData) : ImageData :=
  { width := id.width, height := id.height,
    data := fun i =>
      if i < id.len then
        if i % 4 = 3 then id.data i else 255 - id.data i
      else 0 }

/-- The grayscale array of `adaptiveThresholdBradley`:
`Math.round(0.299R + 0.587G + 0.114B)` stored into a `Uint32Array`. -/
def grayAt (id : ImageData) (p : ℕ) : ℕ :=
  (jsRound ((299/1000 : ℚ) * id.data (4 * p) + (587/1000 : ℚ) * id.data (4 * p + 1)
    + (114/1000 : ℚ) * id.data (4 * p + 2))).toNat % 2 ^ 32

/-- The running row sum of the integral-table build after scanning `x` columns
of grayscale row `y` (a plain JS number, exact). -/
def rowSumTo (g : ℕ → ℕ) (w y x : ℕ) : ℕ := ∑ j in Finset.range x, g (y * w + j)

/-- The integral table of `adaptiveThresholdBradley`: entry `(y, x)` of the
`(h+1)×(w+1)` `Uint32Array`. Row 0 and column 0 stay zero; every other entry
is the entry above it plus the row sum, the store wrapping modulo `2^32`
(`Uint32Array` store). -/
def integralTab (g : ℕ → ℕ) (w : ℕ) : ℕ → ℕ → ℕ
  | 0, _ => 0
  | y + 1, x => if x = 0 then 0 else (integralTab g w y x + rowSumTo g w y x) % 2 ^ 32

/-- The black/white decision of `adaptiveThresholdBradley` for pixel `p`:
window mean from four integral-table lookups (the JS subtraction of the
read-back 32-bit values is exact, modelled in `ℤ`), pixel is 0 if its gray
value is below `mean * (1 - t)`, else 255. -/
def bradleyPix (id : ImageData) (windowSize : ℕ) (t : ℚ) (p : ℕ) : ℕ :=
  let w := id.width
  let h := id.height
  let g := grayAt id
  let y := p / w
  let x := p % w
  let half := windowSize / 2
  let y0 := y - half
  let y1 := min (h - 1) (y + half)
  let x0 := x - half
  let x1 := min (w - 1) (x + half)
  let count : ℕ := (x1 - x0 + 1) * (y1 - y0 + 1)
  let sum : ℤ := (integralTab g w (y1 + 1) (x1 + 1) : ℤ) - (integralTab g w y0 (x1 + 1) : ℤ)
    - (integralTab g w (y1 + 1) x0 : ℤ) + (integralTab g w y0 x0 : ℤ)
  let mean : ℚ := (sum : ℚ) / (count : ℚ)
  if (g p : ℚ) < mean * (1 - t) then 0 else 255

/-- Source `adaptiveThresholdBradley(srcImage, windowSize, t)`: allocates a new
frame; every pixel is pure black or pure white with alpha 255. -/
def adaptiveThresholdBradley (id : ImageData) (windowSize : ℕ) (t : ℚ) : ImageData :=
  { width := id.width, height := id.height,
    data := fun i =>
      if i < id.len then
        if i % 4 = 3 then 255 else bradleyPix id windowSize t (i / 4)
      else 0 }

/-- Reference semantics for the integral table with unbounded integers, i.e.
without the `Uint32Array` wraparound, following the spec's numeric contract
that "no overflow/wraparound is ever observable". -/
def integralExact (g : ℕ → ℕ) (w : ℕ) : ℕ → ℕ → ℕ
  | 0, _ => 0
  | y + 1, x => if x = 0 then 0 else integralExact g w y x + rowSumTo g w y x

/-- Reference `bradleyPix` over the wraparound-free integral table. -/
def bradleyPixExact (id : ImageData) (windowSize : ℕ) (t : ℚ) (p : ℕ) : ℕ :=
  let w := id.width
  let h := id.height
  let g := grayAt id
  let y := p / w
  let x := p % w
  let half := windowSize / 2
  let y0 := y - half
  let y1 := min (h - 1) (y + half)
  let x0 := x - half
  let x1 := min (w - 1) (x + half)
  let count : ℕ := (x1 - x0 + 1) * (y1 - y0 + 1)
  let sum : ℤ := (integralExact g w (y1 + 1) (x1 + 1) : ℤ) - (integralExact g w y0 (x1 + 1) : ℤ)
    - (integralExact g w (y1 + 1) x0 : ℤ) + (integralExact g w y0 x0 : ℤ)
  let mean : ℚ := (sum : ℚ) / (count : ℚ)
  if (g p : ℚ) < mean * (1 - t) then 0 else 255

/-- Reference adaptive threshold with wraparound-free arithmetic. -/
def adaptiveThresholdBradleyExact (id : ImageData) (windowSize : ℕ) (t : ℚ) : ImageData :=
  { width := id.width, height := id.height,
    data := fun i =>
      if i < id.len then
        if i % 4 = 3 then 255 else bradleyPixExact id windowSize t (i / 4)
      else 0 }

/-- The binary mask `src` of `binaryClose`: `data[i] > 128 ? 1 : 0` per pixel. -/
def maskOf (id : ImageData) (p : ℕ) : Bool := decide (128 < id.data (4 * p))

/-- The `dilate` pass of `binaryClose`: a pixel is on if any in-bounds pixel of
its 3×3 neighbourhood (itself included) is on. -/
def dilate (w h : ℕ) (m : ℕ → Bool) : ℕ → Bool := fun p =>
  let y := p / w
  let x := p % w
  offsets.any fun ky => offsets.any fun kx =>
    let sx : ℤ := (x : ℤ) + kx
    let sy : ℤ := (y : ℤ) + ky
    if sx < 0 ∨ (w : ℤ) ≤ sx ∨ sy < 0 ∨ (h : ℤ) ≤ sy then false
    else m (sy.toNat * w + sx.toNat)

/-- The `erode` pass of `binaryClose`: a pixel stays on only if its whole 3×3
neighbourhood is in bounds and on. -/
def erode (w h : ℕ) (m : ℕ → Bool) : ℕ → Bool := fun p =>
  let y := p / w
  let x := p % w
  offsets.all fun ky => offsets.all fun kx =>
    let sx : ℤ := (x : ℤ) + kx
    let sy : ℤ := (y : ℤ) + ky
    if sx < 0 ∨ (w : ℤ) ≤ sx ∨ sy < 0 ∨ (h : ℤ) ≤ sy then false
    else m (sy.toNat * w + sx.toNat)

/-- Source `binaryClose(imageData, iterations)`: thresholds at 128, applies
`iterations` dilations then `iterations` erosions (the source's two
buffer-swap loops), and renders the mask as pure black/white, alpha 255. -/
def binaryClose (id : ImageData) (iterations : ℕ) : ImageData :=
  let w := id.width
  let h := id.height
  let final := (erode w h)^[iterations] ((dilate w h)^[iterations] (maskOf id))
  { width := w, height := h,
    data := fun i =>
      if i < id.len then
        if i % 4 = 3 then 255 else (if final (i / 4) then 255 else 0)
      else 0 }

/-- The `inversionAttempts` option passed to the external jsQR decoder. -/
inductive Inversion
  | dontInvert
  | attemptBoth
deriving DecidableEq

/-- Outcome of one call of the external decoder: it may throw (`Except.error`),
return `null` (`some …` absent), or return a result object whose `data` field
is a (possibly empty) string. -/
abbrev DecOutcome := Except Unit (Option String)

/-- The external jsQR decoder as seen by the runner: a function of the frame
handed to it and of the `inversionAttempts` option. -/
abbrev Decoder := ImageData → Inversion → DecOutcome

/-- A decode strategy of `qr-scanner.tsx`: a name and a transform; the
transform is a JS function and so may throw, modelled with `Except`. -/
structure Strategy where
  name : String
  fn : ImageData → Except Unit ImageData

/-- The fixed strategy list of `handleScan` (qr-scanner.tsx lines 58–87); every
strategy that mutates pixels works on `copyImage` of the input, `raw` applies
no transform, and the in-source transforms never throw. -/
def strategies : List Strategy :=
  [ { name := "raw", fn := fun id => .ok id },
    { name := "enhanced",
      fn := fun id => .ok (unsharpMask (enhanceContrast (copyImage id) 36) 1) },
    { name := "adaptive",
      fn := fun id => .ok (adaptiveThresholdBradley
        (unsharpMask (enhanceContrast (copyImage id) 36) 1) 41 (12/100)) },
    { name := "adaptive-close",
      fn := fun id => .ok (binaryClose
        (adaptiveThresholdBradley (copyImage id) 41 (12/100)) 1) },
    { name := "invert-adaptive",
      fn := fun id => .ok (adaptiveThresholdBradley
        (invertImageData (copyImage id)) 41 (12/100)) } ]

/-- Strategy at index `k` of the fixed list (out-of-range gives the identity
transform, never reached for `k < 5`). -/
def stratAt (k : ℕ) : Strategy := strategies.getD k { name := "", fn := fun id => .ok id }

/-- The frame variant strategy `k` hands to the decoder (the input itself if
the transform throws; the in-source transforms never do). -/
def stratOut (img : ImageData) (k : ℕ) : ImageData :=
  match (stratAt k).fn img with
  | .ok c => c
  | .error _ => img

/-- What one `handleScan` call did: the reported result (payload and strategy
name) if any, the decoder invocations it made in order (strategy name and
`inversionAttempts`), and whether it called `stopScanning`. -/
structure ScanOutcome where
  result : Option (String × String)
  decodes : List (String × Inversion)
  stopped : Bool
deriving DecidableEq

/-- The strategy loop of `handleScan` (qr-scanner.tsx lines 90–106): for each
strategy in order, run its transform and decode the variant with
`dontInvert`; a non-null result with truthy (non-empty) `data` stops the loop
and the webcam; a throw from the transform or the decoder is caught and the
loop continues (a transform throw skips that strategy's decode). -/
def runStrategies (decode : Decoder) (img : ImageData) : List Strategy → ScanOutcome
  | [] => { result := none, decodes := [], stopped := false }
  | s :: rest =>
    match s.fn img with
    | .error _ => runStrategies decode img rest
    | .ok processed =>
      match decode processed Inversion.dontInvert with
      | .error _ =>
        let o := runStrategies decode img rest
        { result := o.result, decodes := (s.name, Inversion.dontInvert) :: o.decodes,
          stopped := o.stopped }
      | .ok none =>
        let o := runStrategies decode img rest
        { result := o.result, decodes := (s.name, Inversion.dontInvert) :: o.decodes,
          stopped := o.stopped }
      | .ok (some d) =>
        if d = "" then
          let o := runStrategies decode img rest
          { result := o.result, decodes := (s.name, Inversion.dontInvert) :: o.decodes,
            stopped := o.stopped }
        else
          { result := some (d, s.name), decodes := [(s.name, Inversion.dontInvert)],
            stopped := true }

/-- `handleScan` (qr-scanner.tsx lines 54–122): the strategy loop, then — only
if no strategy reported — one fallback decode of the untransformed input with
`attemptBoth`, reported as strategy `"fallback-jsqr"`; a fallback throw is
caught and ignored. -/
def handleScan (decode : Decoder) (img : ImageData) : ScanOutcome :=
  let o := runStrategies decode img strategies
  if o.result.isSome then o
  else
    match decode img Inversion.attemptBoth with
    | .error _ =>
      { result := o.result, decodes := o.decodes ++ [("fallback-jsqr", Inversion.attemptBoth)],
        stopped := o.stopped }
    | .ok none =>
      { result := o.result, decodes := o.decodes ++ [("fallback-jsqr", Inversion.attemptBoth)],
        stopped := o.stopped }
    | .ok (some d) =>
      if d = "" then
        { result := o.result, decodes := o.decodes ++ [("fallback-jsqr", Inversion.attemptBoth)],
          stopped := o.stopped }
      else
        { result := some (d, "fallback-jsqr"),
          decodes := o.decodes ++ [("fallback-jsqr", Inversion.attemptBoth)],
          stopped := true }

/-- State of one scan session: whether the capture timer is still armed, the
payloads reported through `onResult` so far, and how many frames were
captured and processed. -/
structure SessionState where
  active : Bool
  results : List String
  processed : ℕ
deriving DecidableEq

/-- Modelled from the spec: the `WebcamCaptureHandle.stop` operation that
`qr-scanner.tsx` imports is not among the provided sources (the shipped
`webcam-capture.tsx` predates it); per spec §4.1 "Stop: cancels the repeating
timer and releases/stops all underlying media tracks". One capture tick: if
the timer was cancelled nothing is captured; otherwise the frame is captured,
`handleScan` runs, a reported result is forwarded to `onResult` and
`stopScanning` cancels the timer. -/
def sessionTick (decode : Decoder) (st : SessionState) (frame : ImageData) : SessionState :=
  if st.active then
    let o := handleScan decode frame
    { active := !o.stopped,
      results := st.results ++ (match o.result with | some (d, _) => [d] | none => []),
      processed := st.processed + 1 }
  else st

/-- Modelled from the spec (see `sessionTick`): a session over a queue of
frames the camera would deliver, started armed with no results. -/
def sessionRun (decode : Decoder) (frames : List ImageData) : SessionState :=
  frames.foldl (sessionTick decode) { active := true, results := [], processed := 0 }

/-- Effect form of `enhanceContrast`: it assigns into `imageData.data` and
returns `imageData` itself, so after the call the argument's buffer holds the
transformed bytes (the pair is (returned frame, argument after the call)). -/
def enhanceContrastEff (id : ImageData) (c : ℚ) : ImageData × ImageData :=
  (enhanceContrast id c, enhanceContrast id c)

/-- Effect form of `unsharpMask`: writes into `imageData.data` (reading from a
private copy), returning the mutated argument. -/
def unsharpMaskEff (id : ImageData) (a : ℚ) : ImageData × ImageData :=
  (unsharpMask id a, unsharpMask id a)

/-- Effect form of `invertImageData`: only reads the argument and returns a
freshly allocated frame, so the argument is unchanged. -/
def invertImageDataEff (id : ImageData) : ImageData × ImageData :=
  (invertImageData id, id)

/-- Effect form of `adaptiveThresholdBradley`: only reads the argument
(grayscale and integral table are private arrays, output a fresh frame). -/
def adaptiveThresholdBradleyEff (id : ImageData) (ws : ℕ) (t : ℚ) : ImageData × ImageData :=
  (adaptiveThresholdBradley id ws t, id)

/-- Effect form of `binaryClose`: only reads the argument (mask buffers are
private, output is a fresh frame). -/
def binaryCloseEff (id : ImageData) (n : ℕ) : ImageData × ImageData :=
  (binaryClose id n, id)

/-- Effect form of the five strategies of `handleScan`: each entry maps the
captured frame to (variant handed to the decoder, captured frame's buffer
after the strategy ran). `raw` passes the frame through unwritten; the other
four hand every mutating filter a `copyImage` of the frame, so the frame
itself is only read. -/
def stratEffs : List (String × (ImageData → ImageData × ImageData)) :=
  [ ("raw", fun id => (id, id)),
    ("enhanced", fun id =>
      let e1 := enhanceContrastEff (copyImage id) 36
      let e2 := unsharpMaskEff e1.1 1
      (e2.1, id)),
    ("adaptive", fun id =>
      let e1 := enhanceContrastEff (copyImage id) 36
      let e2 := unsharpMaskEff e1.1 1
      let e3 := adaptiveThresholdBradleyEff e2.1 41 (12/100)
      (e3.1, id)),
    ("adaptive-close", fun id =>
      let e1 := adaptiveThresholdBradleyEff (copyImage id) 41 (12/100)
      let e2 := binaryCloseEff e1.1 1
      (e2.1, id)),
    ("invert-adaptive", fun id =>
      let e1 := invertImageDataEff (copyImage id)
      let e2 := adaptiveThresholdBradleyEff e1.1 41 (12/100)
      (e2.1, id)) ]

/-- The captured frame's buffer after all five strategies of one `handleScan`
call ran over it in order (each strategy sees the buffer the previous one
left behind); the fallback then reads this buffer. -/
def scanBufferAfter (img : ImageData) : ImageData :=
  stratEffs.foldl (fun buf s => (s.2 buf).2) img

/-- An all-white frame: every byte of every pixel is 255. -/
def whiteFrame (w h : ℕ) : ImageData :=
  { width := w, height := h, data := fun i => if i < w * h * 4 then 255 else 0 }

/-- A concrete well-formed 1×1 frame with pixel (100, 100, 100, 100). -/
def exFrame : ImageData :=
  { width := 1, height := 1, data := fun i => if i < 4 then 100 else 0 }

/-- A decoder stub that always succeeds with payload "QR". -/
def decodeAlways : Decoder := fun _ _ => .ok (some "QR")

/-- A decoder stub that fails (`null`) under `dontInvert` and succeeds with
payload "FB" under `attemptBoth`. -/
def decodeFallbackOnly : Decoder := fun _ inv =>
  match inv with
  | Inversion.dontInvert => .ok none
  | Inversion.attemptBoth => .ok (some "FB")

/-- A decoder stub that always throws. -/
def decodeThrows : Decoder := fun _ _ => .error ()

/-- A strategy stub whose transform always throws. -/
def stratThrows : Strategy := { name := "boom", fn := fun _ => .error () }

theorem clamp_le (v : ℤ) : clamp v ≤ 255 := by
  unfold clamp
  split
  · omega
  · split <;> omega

/-- C6: `invertImageData` is an exact involution on well-formed frames: every
byte of every pixel, alpha included, returns to its original value. -/
theorem C6_invert_involution (f : ImageData) (hwf : f.Wf) :
    invertImageData (invertImageData f) = f := by
  obtain ⟨h1, h2⟩ := hwf
  rcases f with ⟨w, h, d⟩
  simp only [ImageData.len] at h1 h2
  simp only [invertImageData, ImageData.len, ImageData.mk.injEq, true_and]
  funext i
  by_cases hi : i < w * h * 4
  · by_cases hm : i % 4 = 3
    · simp only [if_pos hi, if_pos hm]
    · simp only [if_pos hi, if_neg hm]
      have := h1 i
      omega
  · rw [if_neg hi]
    exact (h2 i (by omega)).symm

theorem C6_witness : exFrame.Wf ∧ invertImageData (invertImageData exFrame) = exFrame := by
  have hwf : exFrame.Wf := by
    constructor
    · intro i
      simp only [exFrame]
      split <;> omega
    · intro i hi
      simp only [exFrame, ImageData.len] at hi ⊢
      rw [if_neg (by omega)]
  exact ⟨hwf, C6_invert_involution exFrame hwf⟩

theorem bradleyPix_cases (id : ImageData) (ws : ℕ) (t : ℚ) (p : ℕ) :
    bradleyPix id ws t p = 0 ∨ bradleyPix id ws t p = 255 := by
  dsimp only [bradleyPix]
  split
  · exact Or.inl rfl
  · exact Or.inr rfl

/-- C7: every pixel of the adaptive threshold output is pure black or pure
white — each of R, G, B is exactly 0 or 255 and the three channels agree. -/
theorem C7_adaptive_binary (id : ImageData) (ws : ℕ) (t : ℚ) (p : ℕ)
    (hp : p < id.width * id.height) :
    ((adaptiveThresholdBradley id ws t).data (4 * p) = 0 ∨
      (adaptiveThresholdBradley id ws t).data (4 * p) = 255) ∧
    (adaptiveThresholdBradley id ws t).data (4 * p) =
      (adaptiveThresholdBradley id ws t).data (4 * p + 1) ∧
    (adaptiveThresholdBradley id ws t).data (4 * p + 1) =
      (adaptiveThresholdBradley id ws t).data (4 * p + 2) := by
  have hlen : 4 * p + 2 < id.len := by
    unfold ImageData.len
    omega
  have e0 : (adaptiveThresholdBradley id ws t).data (4 * p) = bradleyPix id ws t p := by
    simp only [adaptiveThresholdBradley]
    rw [if_pos (by omega), if_neg (by omega), show 4 * p / 4 = p by omega]
  have e1 : (adaptiveThresholdBradley id ws t).data (4 * p + 1) = bradleyPix id ws t p := by
    simp only [adaptiveThresholdBradley]
    rw [if_pos (by omega), if_neg (by omega), show (4 * p + 1) / 4 = p by omega]
  have e2 : (adaptiveThresholdBradley id ws t).data (4 * p + 2) = bradleyPix id ws t p := by
    simp only [adaptiveThresholdBradley]
    rw [if_pos (by omega), if_neg (by omega), show (4 * p + 2) / 4 = p by omega]
  rw [e0, e1, e2]
  exact ⟨bradleyPix_cases id ws t p, rfl, rfl⟩

theorem C7_adaptive_binary_witness :
    0 < exFrame.width * exFrame.height ∧
    (((adaptiveThresholdBradley exFrame 41 (12/100)).data (4 * 0) = 0 ∨
      (adaptiveThresholdBradley exFrame 41 (12/100)).data (4 * 0) = 255) ∧
    (adaptiveThresholdBradley exFrame 41 (12/100)).data (4 * 0) =
      (adaptiveThresholdBradley exFrame 41 (12/100)).data (4 * 0 + 1) ∧
    (adaptiveThresholdBradley exFrame 41 (12/100)).data (4 * 0 + 1) =
      (adaptiveThresholdBradley exFrame 41 (12/100)).data (4 * 0 + 2)) :=
  ⟨by decide, C7_adaptive_binary exFrame 41 (12/100) 0 (by decide)⟩

/-- C3 counterexample: `enhanceContrast` is not side-effect-free on its input —
after the call, byte 0 of the argument's buffer no longer holds its original
value (100 has been remapped). -/
theorem C3_cex : (enhanceContrastEff exFrame 36).2.data 0 ≠ exFrame.data 0 := by
  have hcast : ((exFrame.data 0 : ℕ) : ℚ) = 100 := by norm_num [exFrame]
  have hfloor : jsRound (contrastFactor 36 * ((100 : ℚ) - 128) + 128) = 91 := by
    unfold jsRound contrastFactor
    rw [Int.floor_eq_iff]
    norm_num
  have hval : (enhanceContrastEff exFrame 36).2.data 0 = 91 := by
    simp only [enhanceContrastEff, enhanceContrast]
    rw [if_pos (show 0 < exFrame.len ∧ 0 % 4 ≠ 3 by refine ⟨by decide, by decide⟩)]
    rw [hcast, hfloor]
    decide
  rw [hval]
  decide

/-- C3 amended: `invertImageData`, `adaptiveThresholdBradley` and `binaryClose`
are side-effect-free on their input (they allocate a fresh frame), while
`enhanceContrast` and `unsharpMask` write their result into the input frame in
place — after the call the argument's buffer holds the returned frame; the
runner therefore hands those two only private copies. -/
theorem C3_amended (id : ImageData) (c a t : ℚ) (ws n : ℕ) :
    (invertImageDataEff id).2 = id ∧
    (adaptiveThresholdBradleyEff id ws t).2 = id ∧
    (binaryCloseEff id n).2 = id ∧
    (enhanceContrastEff id c).2 = (enhanceContrastEff id c).1 ∧
    (unsharpMaskEff id a).2 = (unsharpMaskEff id a).1 :=
  ⟨rfl, rfl, rfl, rfl, rfl⟩

/-- C10: one full `handleScan` pass leaves the captured frame's buffer
unchanged (the decoder being assumed non-mutating): threading the buffer
through all five strategies' effects returns it intact, and the variant each
strategy hands the decoder (per the pure runner) agrees with the effect
model's output, so the fallback then reads the untouched original. -/
theorem C10_frame_untouched (img : ImageData) :
    scanBufferAfter img = img ∧
    ∀ k, (strategies.getD k { name := "", fn := fun id => .ok id }).fn img =
      .ok (((stratEffs.getD k ("", fun id => (id, id))).2 img).1) := by
  refine ⟨rfl, ?_⟩
  intro k
  rcases k with _ | _ | _ | _ | _ | k <;> rfl

/-- C5: a throw from a strategy's transform or from its decoder invocation is
caught by the runner: the reported result and the stop decision are exactly
those of running the remaining strategies, which are still attempted; at most
the one decoder invocation of the throwing attempt is added to the trace. -/
theorem C5_catch_continue (decode : Decoder) (img : ImageData) (s : Strategy)
    (rest : List Strategy)
    (h : s.fn img = .error () ∨
      ∃ c, s.fn img = .ok c ∧ decode c Inversion.dontInvert = .error ()) :
    (runStrategies decode img (s :: rest)).result = (runStrategies decode img rest).result ∧
    (runStrategies decode img (s :: rest)).stopped = (runStrategies decode img rest).stopped ∧
    ∃ pre, pre.length ≤ 1 ∧
      (runStrategies decode img (s :: rest)).decodes =
        pre ++ (runStrategies decode img rest).decodes := by
  rcases h with herr | ⟨c, hok, herr⟩
  · refine ⟨?_, ?_, ⟨[], by norm_num, ?_⟩⟩ <;> simp [runStrategies, herr]
  · refine ⟨?_, ?_, ⟨[(s.name, Inversion.dontInvert)], by norm_num, ?_⟩⟩ <;>
      simp [runStrategies, hok, herr]

theorem C5_witness :
    (stratThrows.fn exFrame = .error () ∨
      ∃ c, stratThrows.fn exFrame = .ok c ∧ decodeAlways c Inversion.dontInvert = .error ()) ∧
    ((runStrategies decodeAlways exFrame (stratThrows :: [])).result =
        (runStrategies decodeAlways exFrame []).result ∧
      (runStrategies decodeAlways exFrame (stratThrows :: [])).stopped =
        (runStrategies decodeAlways exFrame []).stopped ∧
      ∃ pre, pre.length ≤ 1 ∧
        (runStrategies decodeAlways exFrame (stratThrows :: [])).decodes =
          pre ++ (runStrategies decodeAlways exFrame []).decodes) :=
  ⟨Or.inl rfl, C5_catch_continue decodeAlways exFrame stratThrows [] (Or.inl rfl)⟩

theorem runStrategies_failure (d : Decoder) (img c : ImageData) (s : Strategy)
    (rest : List Strategy) (h1 : s.fn img = .ok c)
    (h2 : d c Inversion.dontInvert = .ok none) :
    runStrategies d img (s :: rest) =
      { result := (runStrategies d img rest).result,
        decodes := (s.name, Inversion.dontInvert) :: (runStrategies d img rest).decodes,
        stopped := (runStrategies d img rest).stopped } := by
  simp only [runStrategies, h1, h2]

theorem runStrategies_success (d : Decoder) (img c : ImageData) (s : Strategy)
    (rest : List Strategy) (p : String) (h1 : s.fn img = .ok c)
    (h2 : d c Inversion.dontInvert = .ok (some p)) (h3 : ¬ p = "") :
    runStrategies d img (s :: rest) =
      { result := some (p, s.name), decodes := [(s.name, Inversion.dontInvert)],
        stopped := true } := by
  simp only [runStrategies, h1, h2, if_neg h3]

/-- C1: if the decoder succeeds with a non-empty payload on the variant of
strategy `k` and returns no result on every earlier variant, `handleScan`
invokes the decoder exactly `k+1` times (strategies `0..k` with `dontInvert`,
in order, and nothing else — no later strategy, no fallback), reports
(payload, name of strategy `k`), and stops the webcam. -/
theorem C1_short_circuit (decode : Decoder) (img : ImageData) (k : ℕ) (hk : k < 5)
    (payload : String) (hp : payload ≠ "")
    (hfail : ∀ j, j < k → decode (stratOut img j) Inversion.dontInvert = .ok none)
    (hsucc : decode (stratOut img k) Inversion.dontInvert = .ok (some payload)) :
    handleScan decode img =
      { result := some (payload, (stratAt k).name),
        decodes := (List.range (k + 1)).map (fun j => ((stratAt j).name, Inversion.dontInvert)),
        stopped := true } := by
  interval_cases k
  · have hrun : runStrategies decode img strategies =
        { result := some (payload, (stratAt 0).name),
          decodes := [((stratAt 0).name, Inversion.dontInvert)], stopped := true } := by
      rw [show strategies = stratAt 0 :: stratAt 1 :: stratAt 2 :: stratAt 3 :: stratAt 4 :: []
            from rfl,
        runStrategies_success decode img (stratOut img 0) (stratAt 0) _ payload rfl hsucc hp]
    simp only [handleScan]
    rw [hrun]
    rfl
  · have hrun : runStrategies decode img strategies =
        { result := some (payload, (stratAt 1).name),
          decodes := [((stratAt 0).name, Inversion.dontInvert),
            ((stratAt 1).name, Inversion.dontInvert)], stopped := true } := by
      rw [show strategies = stratAt 0 :: stratAt 1 :: stratAt 2 :: stratAt 3 :: stratAt 4 :: []
            from rfl,
        runStrategies_failure decode img (stratOut img 0) (stratAt 0) _ rfl (hfail 0 (by omega)),
        runStrategies_success decode img (stratOut img 1) (stratAt 1) _ payload rfl hsucc hp]
    simp only [handleScan]
    rw [hrun]
    rfl
  · have hrun : runStrategies decode img strategies =
        { result := some (payload, (stratAt 2).name),
          decodes := [((stratAt 0).name, Inversion.dontInvert),
            ((stratAt 1).name, Inversion.dontInvert),
            ((stratAt 2).name, Inversion.dontInvert)], stopped := true } := by
      rw [show strategies = stratAt 0 :: stratAt 1 :: stratAt 2 :: stratAt 3 :: stratAt 4 :: []
            from rfl,
        runStrategies_failure decode img (stratOut img 0) (stratAt 0) _ rfl (hfail 0 (by omega)),
        runStrategies_failure decode img (stratOut img 1) (stratAt 1) _ rfl (hfail 1 (by omega)),
        runStrategies_success decode img (stratOut img 2) (stratAt 2) _ payload rfl hsucc hp]
    simp only [handleScan]
    rw [hrun]
    rfl
  · have hrun : runStrategies decode img strategies =
        { result := some (payload, (stratAt 3).name),
          decodes := [((stratAt 0).name, Inversion.dontInvert),
            ((stratAt 1).name, Inversion.dontInvert),
            ((stratAt 2).name, Inversion.dontInvert),
            ((stratAt 3).name, Inversion.dontInvert)], stopped := true } := by
      rw [show strategies = stratAt 0 :: stratAt 1 :: stratAt 2 :: stratAt 3 :: stratAt 4 :: []
            from rfl,
        runStrategies_failure decode img (stratOut img 0) (stratAt 0) _ rfl (hfail 0 (by omega)),
        runStrategies_failure decode img (stratOut img 1) (stratAt 1) _ rfl (hfail 1 (by omega)),
        runStrategies_failure decode img (stratOut img 2) (stratAt 2) _ rfl (hfail 2 (by omega)),
        runStrategies_success decode img (stratOut img 3) (stratAt 3) _ payload rfl hsucc hp]
    simp only [handleScan]
    rw [hrun]
    rfl
  · have hrun : runStrategies decode img strategies =
        { result := some (payload, (stratAt 4).name),
          decodes := [((stratAt 0).name, Inversion.dontInvert),
            ((stratAt 1).name, Inversion.dontInvert),
            ((stratAt 2).name, Inversion.dontInvert),
            ((stratAt 3).name, Inversion.dontInvert),
            ((stratAt 4).name, Inversion.dontInvert)], stopped := true } := by
      rw [show strategies = stratAt 0 :: stratAt 1 :: stratAt 2 :: stratAt 3 :: stratAt 4 :: []
            from rfl,
        runStrategies_failure decode img (stratOut img 0) (stratAt 0) _ rfl (hfail 0 (by omega)),
        runStrategies_failure decode img (stratOut img 1) (stratAt 1) _ rfl (hfail 1 (by omega)),
        runStrategies_failure decode img (stratOut img 2) (stratAt 2) _ rfl (hfail 2 (by omega)),
        runStrategies_failure decode img (stratOut img 3) (stratAt 3) _ rfl (hfail 3 (by omega)),
        runStrategies_success decode img (stratOut img 4) (stratAt 4) _ payload rfl hsucc hp]
    simp only [handleScan]
    rw [hrun]
    rfl

theorem C1_witness :
    ("QR" : String) ≠ "" ∧
    (∀ j, j < 0 → decodeAlways (stratOut exFrame j) Inversion.dontInvert = .ok none) ∧
    decodeAlways (stratOut exFrame 0) Inversion.dontInvert = .ok (some "QR") ∧
    handleScan decodeAlways exFrame =
      { result := some ("QR", (stratAt 0).name),
        decodes := (List.range (0 + 1)).map (fun j => ((stratAt j).name, Inversion.dontInvert)),
        stopped := true } :=
  ⟨by decide, fun j hj => absurd hj (by omega), rfl,
    C1_short_circuit decodeAlways exFrame 0 (by omega) "QR" (by decide)
      (fun j hj => absurd hj (by omega)) rfl⟩

theorem handleScan_fb (d : Decoder) (img : ImageData) (L : List (String × Inversion))
    (h : runStrategies d img strategies = { result := none, decodes := L, stopped := false }) :
    handleScan d img =
      match d img Inversion.attemptBoth with
      | .ok (some p) =>
        if p = "" then
          { result := none, decodes := L ++ [("fallback-jsqr", Inversion.attemptBoth)],
            stopped := false }
        else
          { result := some (p, "fallback-jsqr"),
            decodes := L ++ [("fallback-jsqr", Inversion.attemptBoth)], stopped := true }
      | _ =>
        { result := none, decodes := L ++ [("fallback-jsqr", Inversion.attemptBoth)],
          stopped := false } := by
  simp only [handleScan]
  rw [h]
  rcases hab : d img Inversion.attemptBoth with e | r
  · rfl
  · rcases r with _ | p
    · rfl
    · rfl

/-- C4: if the decoder returns no result with `dontInvert` on all five
strategy variants, `handleScan` performs exactly one fallback decode, on the
untransformed input with `attemptBoth` (the trace is the five `dontInvert`
attempts followed by the single fallback attempt); if the fallback yields a
non-empty payload the result is reported as (payload, "fallback-jsqr") and the
webcam is stopped, and if it returns no result nothing is reported and the
session stays active. -/
theorem C4_fallback (decode : Decoder) (img : ImageData)
    (hfail : ∀ j, j < 5 → decode (stratOut img j) Inversion.dontInvert = .ok none) :
    (handleScan decode img).decodes =
      (List.range 5).map (fun j => ((stratAt j).name, Inversion.dontInvert)) ++
        [("fallback-jsqr", Inversion.attemptBoth)] ∧
    (∀ p, p ≠ "" → decode img Inversion.attemptBoth = .ok (some p) →
      (handleScan decode img).result = some (p, "fallback-jsqr") ∧
        (handleScan decode img).stopped = true) ∧
    (decode img Inversion.attemptBoth = .ok none →
      (handleScan decode img).result = none ∧ (handleScan decode img).stopped = false) := by
  have hrun : runStrategies decode img strategies =
      { result := none,
        decodes := [((stratAt 0).name, Inversion.dontInvert),
          ((stratAt 1).name, Inversion.dontInvert), ((stratAt 2).name, Inversion.dontInvert),
          ((stratAt 3).name, Inversion.dontInvert), ((stratAt 4).name, Inversion.dontInvert)],
        stopped := false } := by
    rw [show strategies = stratAt 0 :: stratAt 1 :: stratAt 2 :: stratAt 3 :: stratAt 4 :: []
          from rfl,
      runStrategies_failure decode img (stratOut img 0) (stratAt 0) _ rfl (hfail 0 (by omega)),
      runStrategies_failure decode img (stratOut img 1) (stratAt 1) _ rfl (hfail 1 (by omega)),
      runStrategies_failure decode img (stratOut img 2) (stratAt 2) _ rfl (hfail 2 (by omega)),
      runStrategies_failure decode img (stratOut img 3) (stratAt 3) _ rfl (hfail 3 (by omega)),
      runStrategies_failure decode img (stratOut img 4) (stratAt 4) _ rfl (hfail 4 (by omega))]
    rfl
  have hfb := handleScan_fb decode img _ hrun
  refine ⟨?_, ?_, ?_⟩
  · rcases hab : decode img Inversion.attemptBoth with e | r
    · rw [hfb, hab]
      rfl
    · rcases r with _ | d
      · rw [hfb, hab]
        rfl
      · by_cases hd : d = ""
        · rw [hfb, hab]
          dsimp only
          rw [if_pos hd]
          rfl
        · rw [hfb, hab]
          dsimp only
          rw [if_neg hd]
          rfl
  · intro p hp hab
    constructor
    · rw [hfb, hab]
      dsimp only
      rw [if_neg hp]
    · rw [hfb, hab]
      dsimp only
      rw [if_neg hp]
  · intro hab
    constructor
    · rw [hfb, hab]
    · rw [hfb, hab]

theorem C4_witness :
    (∀ j, j < 5 → decodeFallbackOnly (stratOut exFrame j) Inversion.dontInvert = .ok none) ∧
    ((handleScan decodeFallbackOnly exFrame).decodes =
      (List.range 5).map (fun j => ((stratAt j).name, Inversion.dontInvert)) ++
        [("fallback-jsqr", Inversion.attemptBoth)] ∧
    (∀ p, p ≠ "" → decodeFallbackOnly exFrame Inversion.attemptBoth = .ok (some p) →
      (handleScan decodeFallbackOnly exFrame).result = some (p, "fallback-jsqr") ∧
        (handleScan decodeFallbackOnly exFrame).stopped = true) ∧
    (decodeFallbackOnly exFrame Inversion.attemptBoth = .ok none →
      (handleScan decodeFallbackOnly exFrame).result = none ∧
        (handleScan decodeFallbackOnly exFrame).stopped = false)) :=
  ⟨fun _ _ => rfl, C4_fallback decodeFallbackOnly exFrame (fun _ _ => rfl)⟩

theorem handleScan_first_success (d : Decoder) (img : ImageData) (p : String)
    (h2 : d img Inversion.dontInvert = .ok (some p)) (h3 : ¬ p = "") :
    handleScan d img =
      { result := some (p, "raw"), decodes := [("raw", Inversion.dontInvert)],
        stopped := true } := by
  have hrun : runStrategies d img strategies =
      { result := some (p, "raw"), decodes := [("raw", Inversion.dontInvert)],
        stopped := true } := by
    rw [show strategies = stratAt 0 :: stratAt 1 :: stratAt 2 :: stratAt 3 :: stratAt 4 :: []
          from rfl,
      runStrategies_success d img img (stratAt 0) _ p rfl h2 h3]
    rfl
  simp only [handleScan]
  rw [hrun]
  rfl

theorem sessionRun_inactive (d : Decoder) (fs : List ImageData) (st : SessionState)
    (h : st.active = false) : fs.foldl (sessionTick d) st = st := by
  induction fs with
  | nil => rfl
  | cons f fs ih =>
    rw [List.foldl_cons, show sessionTick d st f = st by rw [sessionTick, h]; rfl]
    exact ih

/-- C2: with a decoder that succeeds (non-empty payload) on every call, a
session over any non-empty queue of frames reports a result exactly once,
captures and processes exactly one frame, and ends with the capture timer
cancelled — all later queued frames are neither captured nor processed. -/
theorem C2_at_most_once (d : Decoder)
    (h : ∀ i inv, ∃ s, d i inv = Except.ok (some s) ∧ s ≠ "")
    (f : ImageData) (fs : List ImageData) :
    (sessionRun d (f :: fs)).results.length = 1 ∧
    (sessionRun d (f :: fs)).processed = 1 ∧
    (sessionRun d (f :: fs)).active = false := by
  obtain ⟨s, hs, hne⟩ := h f Inversion.dontInvert
  have hscan := handleScan_first_success d f s hs hne
  have htick : sessionTick d { active := true, results := [], processed := 0 } f =
      { active := false, results := [s], processed := 1 } := by
    rw [sessionTick, if_pos rfl, hscan]
    rfl
  rw [sessionRun, List.foldl_cons, htick, sessionRun_inactive d fs _ rfl]
  exact ⟨rfl, rfl, rfl⟩

theorem C2_witness :
    (∀ i inv, ∃ s, decodeAlways i inv = Except.ok (some s) ∧ s ≠ "") ∧
    ((sessionRun decodeAlways (exFrame :: exFrame :: [])).results.length = 1 ∧
    (sessionRun decodeAlways (exFrame :: exFrame :: [])).processed = 1 ∧
    (sessionRun decodeAlways (exFrame :: exFrame :: [])).active = false) :=
  ⟨fun i inv => ⟨"QR", rfl, by decide⟩,
    C2_at_most_once decodeAlways (fun i inv => ⟨"QR", rfl, by decide⟩) exFrame (exFrame :: [])⟩

theorem rowSumTo_const (g : ℕ → ℕ) (w y x v : ℕ) (hg : ∀ j, j < x → g (y * w + j) = v) :
    rowSumTo g w y x = v * x := by
  unfold rowSumTo
  rw [Finset.sum_congr rfl (fun j hj => hg j (Finset.mem_range.mp hj))]
  simp [mul_comm]

theorem integralTab_const (g : ℕ → ℕ) (w h v : ℕ) (hg : ∀ q, q < w * h → g q = v) :
    ∀ Y X, Y ≤ h → X ≤ w → integralTab g w Y X = v * Y * X % 2 ^ 32 := by
  intro Y
  induction Y with
  | zero =>
    intro X _ _
    simp [integralTab]
  | succ y ih =>
    intro X hY hX
    rcases Nat.eq_zero_or_pos X with hx | hx
    · subst hx
      simp [integralTab]
    · have hb : ∀ j, j < X → g (y * w + j) = v := by
        intro j hj
        apply hg
        have hjw : j < w := lt_of_lt_of_le hj hX
        calc y * w + j < y * w + w := by omega
          _ = (y + 1) * w := by ring
          _ ≤ h * w := Nat.mul_le_mul_right w hY
          _ = w * h := Nat.mul_comm h w
      simp only [integralTab]
      rw [if_neg (by omega), ih X (by omega) hX, rowSumTo_const g w y X v hb,
        Nat.mod_add_mod]
      congr 1
      ring

theorem integralExact_const (g : ℕ → ℕ) (w h v : ℕ) (hg : ∀ q, q < w * h → g q = v) :
    ∀ Y X, Y ≤ h → X ≤ w → integralExact g w Y X = v * Y * X := by
  intro Y
  induction Y with
  | zero =>
    intro X _ _
    simp [integralExact]
  | succ y ih =>
    intro X hY hX
    rcases Nat.eq_zero_or_pos X with hx | hx
    · subst hx
      simp [integralExact]
    · have hb : ∀ j, j < X → g (y * w + j) = v := by
        intro j hj
        apply hg
        have hjw : j < w := lt_of_lt_of_le hj hX
        calc y * w + j < y * w + w := by omega
          _ = (y + 1) * w := by ring
          _ ≤ h * w := Nat.mul_le_mul_right w hY
          _ = w * h := Nat.mul_comm h w
      simp only [integralExact]
      rw [if_neg (by omega), ih X (by omega) hX, rowSumTo_const g w y X v hb]
      ring

theorem jsRound_255 : jsRound 255 = 255 := by
  unfold jsRound
  rw [Int.floor_eq_iff]
  constructor <;> norm_num

theorem grayAt_white (w h p : ℕ) (hp : p < w * h) : grayAt (whiteFrame w h) p = 255 := by
  simp only [grayAt, whiteFrame]
  rw [if_pos (show 4 * p < w * h * 4 by omega), if_pos (show 4 * p + 1 < w * h * 4 by omega),
    if_pos (show 4 * p + 2 < w * h * 4 by omega)]
  norm_num
  rw [jsRound_255]
  rfl

theorem bradleyPix_white (w h ws p : ℕ) (hp : p < w * h) (hbound : 255 * h * w < 2 ^ 32) :
    bradleyPix (whiteFrame w h) ws (12/100) p = 255 := by
  have hw : 0 < w := by
    rcases Nat.eq_zero_or_pos w with h0 | h0
    · subst h0
      simp at hp
    · exact h0
  have hh : 0 < h := by
    rcases Nat.eq_zero_or_pos h with h0 | h0
    · subst h0
      simp at hp
    · exact h0
  have hgray : ∀ q, q < w * h → grayAt (whiteFrame w h) q = 255 :=
    fun q hq => grayAt_white w h q hq
  have hW : (whiteFrame w h).width = w := rfl
  have hH : (whiteFrame w h).height = h := rfl
  dsimp only [bradleyPix]
  rw [hW, hH]
  set y := p / w with hy
  set x := p % w with hx
  have hyh : y < h := by
    rw [hy]
    exact Nat.div_lt_of_lt_mul (Nat.mul_comm w h ▸ hp)
  have hxw : x < w := Nat.mod_lt p hw
  set half := ws / 2 with hhalf
  set y0 := y - half with hy0
  set y1 := min (h - 1) (y + half) with hy1
  set x0 := x - half with hx0
  set x1 := min (w - 1) (x + half) with hx1
  have hy01 : y0 ≤ y1 := by
    have h1 : y ≤ y1 := by
      rw [hy1]
      exact le_min (by omega) (Nat.le_add_right y half)
    rw [hy0]
    exact le_trans (Nat.sub_le y half) h1
  have hx01 : x0 ≤ x1 := by
    have h1 : x ≤ x1 := by
      rw [hx1]
      exact le_min (by omega) (Nat.le_add_right x half)
    rw [hx0]
    exact le_trans (Nat.sub_le x half) h1
  have hy1h : y1 + 1 ≤ h := by
    have h1 : y1 ≤ h - 1 := by
      rw [hy1]
      exact min_le_left _ _
    exact lt_of_le_of_lt h1 (Nat.pred_lt (Nat.pos_iff_ne_zero.mp hh))
  have hx1w : x1 + 1 ≤ w := by
    have h1 : x1 ≤ w - 1 := by
      rw [hx1]
      exact min_le_left _ _
    exact lt_of_le_of_lt h1 (Nat.pred_lt (Nat.pos_iff_ne_zero.mp hw))
  have hy0h : y0 ≤ h := by
    rw [hy0]
    exact le_trans (Nat.sub_le y half) (le_of_lt hyh)
  have hx0w : x0 ≤ w := by
    rw [hx0]
    exact le_trans (Nat.sub_le x half) (le_of_lt hxw)
  have hmod : ∀ Y X, Y ≤ h → X ≤ w → 255 * Y * X % 2 ^ 32 = 255 * Y * X := by
    intro Y X hY hX
    apply Nat.mod_eq_of_lt
    calc 255 * Y * X ≤ 255 * h * w := Nat.mul_le_mul (Nat.mul_le_mul_left 255 hY) hX
      _ < 2 ^ 32 := hbound
  rw [integralTab_const (grayAt (whiteFrame w h)) w h 255 hgray (y1 + 1) (x1 + 1) hy1h hx1w,
    integralTab_const (grayAt (whiteFrame w h)) w h 255 hgray y0 (x1 + 1) hy0h hx1w,
    integralTab_const (grayAt (whiteFrame w h)) w h 255 hgray (y1 + 1) x0 hy1h hx0w,
    integralTab_const (grayAt (whiteFrame w h)) w h 255 hgray y0 x0 hy0h hx0w,
    hmod _ _ hy1h hx1w, hmod _ _ hy0h hx1w, hmod _ _ hy1h hx0w, hmod _ _ hy0h hx0w,
    hgray p hp]
  have hcnt0 : 0 < (x1 - x0 + 1) * (y1 - y0 + 1) := Nat.mul_pos (Nat.succ_pos _) (Nat.succ_pos _)
  have hcnt : (((x1 - x0 + 1) * (y1 - y0 + 1) : ℕ) : ℚ) ≠ 0 :=
    Nat.cast_ne_zero.mpr (Nat.pos_iff_ne_zero.mp hcnt0)
  have key : ((((255 * (y1 + 1) * (x1 + 1) : ℕ) : ℤ) - ((255 * y0 * (x1 + 1) : ℕ) : ℤ)
      - ((255 * (y1 + 1) * x0 : ℕ) : ℤ) + ((255 * y0 * x0 : ℕ) : ℤ) : ℤ) : ℚ) /
      (((x1 - x0 + 1) * (y1 - y0 + 1) : ℕ) : ℚ) = 255 := by
    rw [div_eq_iff hcnt]
    push_cast [Nat.cast_sub hx01, Nat.cast_sub hy01]
    ring
  rw [key]
  rw [if_neg (by norm_num)]

/-- C9: a 100×100 all-white frame through `adaptiveThresholdBradley` with
window 41 and `t = 0.12` yields an all-white frame — every byte of every
pixel, alpha included, is 255. -/
theorem C9_all_white (i : ℕ) (hi : i < 100 * 100 * 4) :
    (adaptiveThresholdBradley (whiteFrame 100 100) 41 (12/100)).data i = 255 := by
  simp only [adaptiveThresholdBradley]
  rw [if_pos (show i < (whiteFrame 100 100).len from hi)]
  by_cases hm : i % 4 = 3
  · rw [if_pos hm]
  · rw [if_neg hm]
    exact bradleyPix_white 100 100 41 (i / 4) (by omega) (by norm_num)

theorem C9_witness :
    0 < 100 * 100 * 4 ∧
    (adaptiveThresholdBradley (whiteFrame 100 100) 41 (12/100)).data 0 = 255 :=
  ⟨by norm_num, C9_all_white 0 (by norm_num)⟩

theorem rowSumTo_le (g : ℕ → ℕ) (w y x : ℕ) (hg : ∀ q, g q ≤ 255) :
    rowSumTo g w y x ≤ 255 * x := by
  unfold rowSumTo
  calc ∑ j in Finset.range x, g (y * w + j) ≤ ∑ _j in Finset.range x, 255 :=
        Finset.sum_le_sum (fun j _ => hg (y * w + j))
    _ = 255 * x := by simp [mul_comm]

theorem integralExact_le (g : ℕ → ℕ) (w : ℕ) (hg : ∀ q, g q ≤ 255) :
    ∀ Y X, integralExact g w Y X ≤ 255 * Y * X := by
  intro Y
  induction Y with
  | zero =>
    intro X
    simp [integralExact]
  | succ y ih =>
    intro X
    rcases Nat.eq_zero_or_pos X with hx | hx
    · subst hx
      simp [integralExact]
    · simp only [integralExact]
      rw [if_neg (by omega)]
      calc integralExact g w y X + rowSumTo g w y X ≤ 255 * y * X + 255 * X :=
            Nat.add_le_add (ih X) (rowSumTo_le g w y X hg)
        _ = 255 * (y + 1) * X := by ring

theorem integralTab_eq_exact (g : ℕ → ℕ) (w : ℕ) (hg : ∀ q, g q ≤ 255) :
    ∀ Y X, 255 * Y * X < 2 ^ 32 → integralTab g w Y X = integralExact g w Y X := by
  intro Y
  induction Y with
  | zero =>
    intro X _
    simp [integralTab, integralExact]
  | succ y ih =>
    intro X hb
    rcases Nat.eq_zero_or_pos X with hx | hx
    · subst hx
      simp [integralTab, integralExact]
    · have hmono : 255 * y * X ≤ 255 * (y + 1) * X :=
        Nat.mul_le_mul_right X (Nat.mul_le_mul_left 255 (by omega))
      simp only [integralTab, integralExact]
      rw [if_neg (by omega), if_neg (by omega), ih X (lt_of_le_of_lt hmono hb)]
      apply Nat.mod_eq_of_lt
      calc integralExact g w y X + rowSumTo g w y X ≤ 255 * y * X + 255 * X :=
            Nat.add_le_add (integralExact_le g w hg y X) (rowSumTo_le g w y X hg)
        _ = 255 * (y + 1) * X := by ring
        _ < 2 ^ 32 := hb

theorem jsRound_le_255 (q : ℚ) (h : q ≤ 255) : jsRound q ≤ 255 := by
  unfold jsRound
  calc ⌊q + 1/2⌋ ≤ ⌊(255 : ℚ) + 1/2⌋ := Int.floor_le_floor (by linarith)
    _ = 255 := jsRound_255

theorem grayAt_le_255 (id : ImageData) (h1 : ∀ i, id.data i ≤ 255) (p : ℕ) :
    grayAt id p ≤ 255 := by
  have ha : ((id.data (4 * p) : ℕ) : ℚ) ≤ 255 := by exact_mod_cast h1 (4 * p)
  have hb : ((id.data (4 * p + 1) : ℕ) : ℚ) ≤ 255 := by exact_mod_cast h1 (4 * p + 1)
  have hc : ((id.data (4 * p + 2) : ℕ) : ℚ) ≤ 255 := by exact_mod_cast h1 (4 * p + 2)
  have hq : (299/1000 : ℚ) * id.data (4 * p) + (587/1000 : ℚ) * id.data (4 * p + 1)
      + (114/1000 : ℚ) * id.data (4 * p + 2) ≤ 255 := by linarith
  have hfl := jsRound_le_255 _ hq
  unfold grayAt
  calc _ % 2 ^ 32 ≤ _ := Nat.mod_le _ _
    _ ≤ 255 := Int.toNat_le.mpr hfl

theorem bradleyPix_eq_exact (id : ImageData) (ws : ℕ) (t : ℚ) (p : ℕ)
    (h1 : ∀ i, id.data i ≤ 255) (hbound : 255 * id.width * id.height < 2 ^ 32)
    (hp : p < id.width * id.height) :
    bradleyPix id ws t p = bradleyPixExact id ws t p := by
  have hw : 0 < id.width := by
    rcases Nat.eq_zero_or_pos id.width with h0 | h0
    · rw [h0] at hp
      simp at hp
    · exact h0
  have hh : 0 < id.height := by
    rcases Nat.eq_zero_or_pos id.height with h0 | h0
    · rw [h0] at hp
      simp at hp
    · exact h0
  have hg : ∀ q, grayAt id q ≤ 255 := grayAt_le_255 id h1
  dsimp only [bradleyPix, bradleyPixExact]
  set y := p / id.width with hy
  set x := p % id.width with hx
  have hyh : y < id.height := by
    rw [hy]
    exact Nat.div_lt_of_lt_mul (Nat.mul_comm id.width id.height ▸ hp)
  have hxw : x < id.width := Nat.mod_lt p hw
  set half := ws / 2 with hhalf
  set y0 := y - half with hy0
  set y1 := min (id.height - 1) (y + half) with hy1
  set x0 := x - half with hx0
  set x1 := min (id.width - 1) (x + half) with hx1
  have hy1h : y1 + 1 ≤ id.height := by
    have h2 : y1 ≤ id.height - 1 := by
      rw [hy1]
      exact min_le_left _ _
    exact lt_of_le_of_lt h2 (Nat.pred_lt (Nat.pos_iff_ne_zero.mp hh))
  have hx1w : x1 + 1 ≤ id.width := by
    have h2 : x1 ≤ id.width - 1 := by
      rw [hx1]
      exact min_le_left _ _
    exact lt_of_le_of_lt h2 (Nat.pred_lt (Nat.pos_iff_ne_zero.mp hw))
  have hy0h : y0 ≤ id.height := by
    rw [hy0]
    exact le_trans (Nat.sub_le y half) (le_of_lt hyh)
  have hx0w : x0 ≤ id.width := by
    rw [hx0]
    exact le_trans (Nat.sub_le x half) (le_of_lt hxw)
  have heq : ∀ Y X, Y ≤ id.height → X ≤ id.width →
      integralTab (grayAt id) id.width Y X = integralExact (grayAt id) id.width Y X := by
    intro Y X hY hX
    apply integralTab_eq_exact (grayAt id) id.width hg
    calc 255 * Y * X ≤ 255 * id.height * id.width :=
          Nat.mul_le_mul (Nat.mul_le_mul_left 255 hY) hX
      _ = 255 * id.width * id.height := by ring
      _ < 2 ^ 32 := hbound
  rw [heq _ _ hy1h hx1w, heq _ _ hy0h hx1w, heq _ _ hy1h hx0w, heq _ _ hy0h hx0w]

theorem bradleyPixExact_white (w h ws p : ℕ) (hp : p < w * h) :
    bradleyPixExact (whiteFrame w h) ws (12/100) p = 255 := by
  have hw : 0 < w := by
    rcases Nat.eq_zero_or_pos w with h0 | h0
    · subst h0
      simp at hp
    · exact h0
  have hh : 0 < h := by
    rcases Nat.eq_zero_or_pos h with h0 | h0
    · subst h0
      simp at hp
    · exact h0
  have hgray : ∀ q, q < w * h → grayAt (whiteFrame w h) q = 255 :=
    fun q hq => grayAt_white w h q hq
  have hW : (whiteFrame w h).width = w := rfl
  have hH : (whiteFrame w h).height = h := rfl
  dsimp only [bradleyPixExact]
  rw [hW, hH]
  set y := p / w with hy
  set x := p % w with hx
  have hyh : y < h := by
    rw [hy]
    exact Nat.div_lt_of_lt_mul (Nat.mul_comm w h ▸ hp)
  have hxw : x < w := Nat.mod_lt p hw
  set half := ws / 2 with hhalf
  set y0 := y - half with hy0
  set y1 := min (h - 1) (y + half) with hy1
  set x0 := x - half with hx0
  set x1 := min (w - 1) (x + half) with hx1
  have hy01 : y0 ≤ y1 := by
    have h1 : y ≤ y1 := by
      rw [hy1]
      exact le_min (by omega) (Nat.le_add_right y half)
    rw [hy0]
    exact le_trans (Nat.sub_le y half) h1
  have hx01 : x0 ≤ x1 := by
    have h1 : x ≤ x1 := by
      rw [hx1]
      exact le_min (by omega) (Nat.le_add_right x half)
    rw [hx0]
    exact le_trans (Nat.sub_le x half) h1
  have hy1h : y1 + 1 ≤ h := by
    have h1 : y1 ≤ h - 1 := by
      rw [hy1]
      exact min_le_left _ _
    exact lt_of_le_of_lt h1 (Nat.pred_lt (Nat.pos_iff_ne_zero.mp hh))
  have hx1w : x1 + 1 ≤ w := by
    have h1 : x1 ≤ w - 1 := by
      rw [hx1]
      exact min_le_left _ _
    exact lt_of_le_of_lt h1 (Nat.pred_lt (Nat.pos_iff_ne_zero.mp hw))
  have hy0h : y0 ≤ h := by
    rw [hy0]
    exact le_trans (Nat.sub_le y half) (le_of_lt hyh)
  have hx0w : x0 ≤ w := by
    rw [hx0]
    exact le_trans (Nat.sub_le x half) (le_of_lt hxw)
  rw [integralExact_const (grayAt (whiteFrame w h)) w h 255 hgray (y1 + 1) (x1 + 1) hy1h hx1w,
    integralExact_const (grayAt (whiteFrame w h)) w h 255 hgray y0 (x1 + 1) hy0h hx1w,
    integralExact_const (grayAt (whiteFrame w h)) w h 255 hgray (y1 + 1) x0 hy1h hx0w,
    integralExact_const (grayAt (whiteFrame w h)) w h 255 hgray y0 x0 hy0h hx0w,
    hgray p hp]
  have hcnt0 : 0 < (x1 - x0 + 1) * (y1 - y0 + 1) := Nat.mul_pos (Nat.succ_pos _) (Nat.succ_pos _)
  have hcnt : (((x1 - x0 + 1) * (y1 - y0 + 1) : ℕ) : ℚ) ≠ 0 :=
    Nat.cast_ne_zero.mpr (Nat.pos_iff_ne_zero.mp hcnt0)
  have key : ((((255 * (y1 + 1) * (x1 + 1) : ℕ) : ℤ) - ((255 * y0 * (x1 + 1) : ℕ) : ℤ)
      - ((255 * (y1 + 1) * x0 : ℕ) : ℤ) + ((255 * y0 * x0 : ℕ) : ℤ) : ℤ) : ℚ) /
      (((x1 - x0 + 1) * (y1 - y0 + 1) : ℕ) : ℚ) = 255 := by
    rw [div_eq_iff hcnt]
    push_cast [Nat.cast_sub hx01, Nat.cast_sub hy01]
    ring
  rw [key]
  rw [if_neg (by norm_num)]

theorem bradleyPix_wrap_flip :
    bradleyPix (whiteFrame 4120 4120) 41 (12/100) 16974399 = 0 := by
  have hgray : ∀ q, q < 4120 * 4120 → grayAt (whiteFrame 4120 4120) q = 255 :=
    fun q hq => grayAt_white 4120 4120 q hq
  have hI := integralTab_const (grayAt (whiteFrame 4120 4120)) 4120 4120 255 hgray
  have h1 : integralTab (grayAt (whiteFrame 4120 4120)) 4120 4120 4120 = 33504704 := by
    rw [hI 4120 4120 le_rfl le_rfl]
    norm_num
  have h2 : integralTab (grayAt (whiteFrame 4120 4120)) 4120 4099 4120 = 11442104 := by
    rw [hI 4099 4120 (by norm_num) le_rfl]
    norm_num
  have h3 : integralTab (grayAt (whiteFrame 4120 4120)) 4120 4120 4099 = 11442104 := by
    rw [hI 4120 4099 le_rfl (by norm_num)]
    norm_num
  have h4 : integralTab (grayAt (whiteFrame 4120 4120)) 4120 4099 4099 = 4284459255 := by
    rw [hI 4099 4099 (by norm_num) (by norm_num)]
    norm_num
  have hW : (whiteFrame 4120 4120).width = 4120 := rfl
  have hH : (whiteFrame 4120 4120).height = 4120 := rfl
  dsimp only [bradleyPix]
  rw [hW, hH]
  rw [show (16974399 : ℕ) / 4120 = 4119 from by norm_num,
    show (16974399 : ℕ) % 4120 = 4119 from by norm_num,
    show (41 : ℕ) / 2 = 20 from by norm_num,
    show min ((4120 : ℕ) - 1) (4119 + 20) = 4119 from by norm_num [min_def],
    show (4119 : ℕ) - 20 = 4099 from by norm_num,
    show (4119 : ℕ) + 1 = 4120 from by norm_num,
    h1, h2, h3, h4, hgray 16974399 (by norm_num)]
  rw [if_pos (by norm_num)]

/-- C8 counterexample: on a 4120×4120 all-white frame the `Uint32Array`
integral table wraps modulo `2^32`, and the wraparound reaches the output —
the bottom-right pixel (byte index 67897596) comes out black (0) under the
code's 32-bit table, while the wraparound-free reference semantics make it
white (255). -/
theorem C8_cex :
    (adaptiveThresholdBradley (whiteFrame 4120 4120) 41 (12/100)).data 67897596 = 0 ∧
    (adaptiveThresholdBradleyExact (whiteFrame 4120 4120) 41 (12/100)).data 67897596 = 255 := by
  constructor
  · simp only [adaptiveThresholdBradley]
    rw [if_pos (show (67897596 : ℕ) < (whiteFrame 4120 4120).len from
        by norm_num [whiteFrame, ImageData.len]),
      if_neg (show ¬(67897596 : ℕ) % 4 = 3 from by norm_num),
      show (67897596 : ℕ) / 4 = 16974399 from by norm_num]
    exact bradleyPix_wrap_flip
  · simp only [adaptiveThresholdBradleyExact]
    rw [if_pos (show (67897596 : ℕ) < (whiteFrame 4120 4120).len from
        by norm_num [whiteFrame, ImageData.len]),
      if_neg (show ¬(67897596 : ℕ) % 4 = 3 from by norm_num),
      show (67897596 : ℕ) / 4 = 16974399 from by norm_num]
    exact bradleyPixExact_white 4120 4120 41 16974399 (by norm_num)

/-- C8 amended: for every filter and well-formed input, every output byte lies
in [0,255]; and the adaptive threshold is free of observable wraparound
exactly on frames small enough for the 32-bit integral table — whenever
`255 * width * height < 2^32` it coincides with the wraparound-free reference
semantics (a 4120×4120 frame exceeds that bound and exhibits an
output-visible wraparound, see the counterexample). -/
theorem C8_amended (id : ImageData) (hwf : id.Wf) (c a t : ℚ) (ws n : ℕ) :
    (∀ i, (enhanceContrast id c).data i ≤ 255) ∧
    (∀ i, (unsharpMask id a).data i ≤ 255) ∧
    (∀ i, (invertImageData id).data i ≤ 255) ∧
    (∀ i, (adaptiveThresholdBradley id ws t).data i ≤ 255) ∧
    (∀ i, (binaryClose id n).data i ≤ 255) ∧
    (255 * id.width * id.height < 2 ^ 32 →
      adaptiveThresholdBradley id ws t = adaptiveThresholdBradleyExact id ws t) := by
  obtain ⟨h1, h2⟩ := hwf
  refine ⟨?_, ?_, ?_, ?_, ?_, ?_⟩
  · intro i
    dsimp only [enhanceContrast]
    split
    · exact clamp_le _
    · exact h1 i
  · intro i
    dsimp only [unsharpMask]
    split
    · exact clamp_le _
    · exact h1 i
  · intro i
    dsimp only [invertImageData]
    split
    · split
      · exact h1 i
      · exact Nat.sub_le 255 _
    · exact Nat.zero_le 255
  · intro i
    dsimp only [adaptiveThresholdBradley]
    split
    · split
      · exact le_refl 255
      · rcases bradleyPix_cases id ws t (i / 4) with hc | hc
        · rw [hc]
          exact Nat.zero_le 255
        · rw [hc]
    · exact Nat.zero_le 255
  · intro i
    dsimp only [binaryClose]
    split
    · split
      · exact le_refl 255
      · split
        · exact le_refl 255
        · exact Nat.zero_le 255
    · exact Nat.zero_le 255
  · intro hb
    have heq : ∀ i, (adaptiveThresholdBradley id ws t).data i =
        (adaptiveThresholdBradleyExact id ws t).data i := by
      intro i
      dsimp only [adaptiveThresholdBradley, adaptiveThresholdBradleyExact]
      by_cases hi : i < id.len
      · rw [if_pos hi, if_pos hi]
        by_cases hm : i % 4 = 3
        · rw [if_pos hm, if_pos hm]
        · rw [if_neg hm, if_neg hm]
          refine bradleyPix_eq_exact id ws t (i / 4) h1 hb ?_
          unfold ImageData.len at hi
          omega
      · rw [if_neg hi, if_neg hi]
    simp only [adaptiveThresholdBradley, adaptiveThresholdBradleyExact, ImageData.mk.injEq,
      true_and]
    funext i
    exact heq i

theorem C8_amended_witness :
    exFrame.Wf ∧
    ((∀ i, (enhanceContrast exFrame 36).data i ≤ 255) ∧
    (∀ i, (unsharpMask exFrame 1).data i ≤ 255) ∧
    (∀ i, (invertImageData exFrame).data i ≤ 255) ∧
    (∀ i, (adaptiveThresholdBradley exFrame 41 (12/100)).data i ≤ 255) ∧
    (∀ i, (binaryClose exFrame 1).data i ≤ 255) ∧
    (255 * exFrame.width * exFrame.height < 2 ^ 32 →
      adaptiveThresholdBradley exFrame 41 (12/100) =
        adaptiveThresholdBradleyExact exFrame 41 (12/100))) := by
  have hwf : exFrame.Wf := by
    constructor
    · intro i
      simp only [exFrame]
      split <;> omega
    · intro i hi
      simp only [exFrame, ImageData.len] at hi ⊢
      rw [if_neg (by omega)]
  exact ⟨hwf, C8_amended exFrame hwf 36 1 (12/100) 41 1⟩
